import Mathlib

/-!
Shallow embedding of `MiniatureRedis_py/ser.py`: the wire-protocol codec
(`ProtocolHandler`), the command dispatch and store operations (`Server`),
and the per-connection read–dispatch–write loop (`connection_handler`).

Bytes are modelled as natural numbers below 256, streams as lists of bytes.
Python exceptions are modelled by the `PyErr` type and fallible code returns
`Except PyErr _`.  Recursive routines carry an explicit fuel argument so that
every definition is structurally recursive and hence executable by the
kernel; fuel exhaustion is reported as `PyErr.recursionError`, matching
CPython's recursion limit on deeply nested input.  All theorems are stated
with ample fuel.
-/

namespace MiniRedis

/-- The readable side of a connection: the bytes still to be consumed.
A byte of the wire stream (0–255) is a plain natural number. -/
abbrev ByteStream := List Nat

/-- Python exception kinds that the source can raise. -/
inductive PyErr
  /-- `Disconnect`: the client went away (ser.py line 15). -/
  | disconnect
  /-- `CommandError(msg)` (ser.py line 14). -/
  | commandError (msg : String)
  /-- `ValueError`, e.g. `int()` applied to a non-numeric byte string. -/
  | valueError
  /-- `TypeError`, e.g. an unhashable dict key or a call with wrong arity. -/
  | typeError
  /-- `NameError`, a reference to an unbound variable name. -/
  | nameError
  /-- `AttributeError`, attribute access on a value lacking it. -/
  | attributeError
  /-- `UnicodeDecodeError` from `bytes.decode("ascii")` on a byte ≥ 128. -/
  | unicodeDecodeError
  /-- CPython's recursion limit; models exhaustion of the decode fuel. -/
  | recursionError
  deriving DecidableEq, Repr

/-- Python `file.readline()`: consume up to and including the first LF byte,
or everything that remains when no LF arrives before end of input. -/
def pyReadline : ByteStream → ByteStream × ByteStream
  | [] => ([], [])
  | b :: t =>
    if b = 10 then ([b], t)
    else
      let r := pyReadline t
      (b :: r.1, r.2)

/-- Python `bytes.rstrip(b"\r\n")`: remove every trailing CR or LF byte. -/
def rstripCRLF (s : ByteStream) : ByteStream :=
  (s.reverse.dropWhile (fun b => b = 13 || b = 10)).reverse

/-- Python `file.read(n)`: at most `n` bytes, fewer at end of input; a
negative size reads everything that remains. -/
def pyRead (n : Int) (s : ByteStream) : ByteStream × ByteStream :=
  if n < 0 then (s, []) else (s.take n.toNat, s.drop n.toNat)

/-- ASCII decimal digit. -/
def isDigitB (b : Nat) : Bool := 48 ≤ b && b ≤ 57

/-- Python whitespace bytes: space, TAB, LF, CR, VT, FF. -/
def isPySpace (b : Nat) : Bool :=
  b = 32 || b = 9 || b = 10 || b = 13 || b = 11 || b = 12

/-- Strip leading and trailing whitespace, as `int()` does before parsing. -/
def stripWS (s : ByteStream) : ByteStream :=
  ((s.dropWhile isPySpace).reverse.dropWhile isPySpace).reverse

/-- Numeric value of a big-endian list of ASCII digit bytes. -/
def natFromDigits (ds : List Nat) : Nat :=
  ds.foldl (fun a d => 10 * a + (d - 48)) 0

/-- Decimal digits of `n`, big-endian, with explicit fuel (the fuel `n + 1`
used by `natToDigits` always suffices). -/
def natToDigitsGo : Nat → Nat → List Nat
  | 0, _ => []
  | f + 1, n => if n < 10 then [48 + n] else natToDigitsGo f (n / 10) ++ [48 + n % 10]

/-- Decimal ASCII digits of a natural number, as Python `b"%d"` renders it. -/
def natToDigits (n : Nat) : List Nat := natToDigitsGo (n + 1) n

/-- Python `b"%d" % i`: optional minus sign followed by decimal digits. -/
def intBytes (i : Int) : List Nat :=
  if i < 0 then 45 :: natToDigits (-i).toNat else natToDigits i.toNat

/-- Python `int(bytes)`: strip surrounding whitespace, accept an optional
sign and a nonempty run of decimal digits, raise `ValueError` otherwise.
(Underscore digit grouping is not modelled; no input here contains it.) -/
def pyInt (s : ByteStream) : Except PyErr Int :=
  match stripWS s with
  | [] => .error .valueError
  | b :: ds =>
    if b = 43 then
      if !ds.isEmpty && ds.all isDigitB then .ok (natFromDigits ds : Nat)
      else .error .valueError
    else if b = 45 then
      if !ds.isEmpty && ds.all isDigitB then .ok (-(natFromDigits ds : Nat))
      else .error .valueError
    else if (b :: ds).all isDigitB then .ok (natFromDigits (b :: ds) : Nat)
    else .error .valueError

/-- The characters of an all-ASCII byte string. -/
def asciiStrOf (s : List Nat) : String := String.mk (s.map Char.ofNat)

/-- Python `bytes.decode("ascii")`: fails on any byte ≥ 128. -/
def asciiDecode (s : List Nat) : Except PyErr String :=
  if s.all (fun b => b < 128) then .ok (asciiStrOf s) else .error .unicodeDecodeError

/-- Python `str.encode("utf-8")` as a byte list. -/
def utf8B (s : String) : List Nat := s.toUTF8.toList.map (fun c => c.toNat)

/-- Python `bytes.upper()`: uppercase the ASCII letters. -/
def upperB (s : List Nat) : List Nat :=
  s.map (fun b => if 97 ≤ b && b ≤ 122 then b - 32 else b)

/-- Worker for `pySplit`: `cur` is the word being accumulated, reversed. -/
def pySplitGo (cur : List Nat) : List Nat → List (List Nat)
  | [] => if cur.isEmpty then [] else [cur.reverse]
  | b :: t =>
    if isPySpace b then
      if cur.isEmpty then pySplitGo [] t else cur.reverse :: pySplitGo [] t
    else pySplitGo (b :: cur) t

/-- Python `bytes.split()` with no separator: split on runs of whitespace,
discarding empty pieces. -/
def pySplit (s : List Nat) : List (List Nat) := pySplitGo [] s

/-- The decoded/encodable Python values the program passes around:
`bytes`, `str`, `int`, `None`, `list`, insertion-ordered `dict`, and the
`Error` namedtuple of ser.py line 17. -/
inductive Value
  | bytesV (s : List Nat)
  | strV (s : String)
  | intV (i : Int)
  | noneV
  | listV (l : List Value)
  | dictV (l : List (Value × Value))
  | errV (m : Value)
  deriving Repr

mutual
/-- Structural equality on `Value` (Python `==` on these shapes). -/
def beqV : Value → Value → Bool
  | .bytesV a, .bytesV b => a == b
  | .strV a, .strV b => a == b
  | .intV a, .intV b => a == b
  | .noneV, .noneV => true
  | .listV a, .listV b => beqL a b
  | .dictV a, .dictV b => beqP a b
  | .errV a, .errV b => beqV a b
  | _, _ => false
/-- Structural equality on lists of `Value`. -/
def beqL : List Value → List Value → Bool
  | [], [] => true
  | a :: as, b :: bs => beqV a b && beqL as bs
  | _, _ => false
/-- Structural equality on lists of `Value` pairs. -/
def beqP : List (Value × Value) → List (Value × Value) → Bool
  | [], [] => true
  | (ka, va) :: as, (kb, vb) :: bs => beqV ka kb && beqV va vb && beqP as bs
  | _, _ => false
end

/-- Python hashability: lists and dicts are unhashable, an `Error` namedtuple
is hashable exactly when its field is. -/
def hashableV : Value → Bool
  | .listV _ => false
  | .dictV _ => false
  | .errV m => hashableV m
  | _ => true

/-- The server's `self._kv` dictionary: insertion-ordered pairs with unique
keys. -/
abbrev Store := List (Value × Value)

/-- Python `d[k] = v` on an insertion-ordered dict: replace the value in
place when the key is present, append otherwise. -/
def insertOrReplace : Store → Value → Value → Store
  | [], k, v => [(k, v)]
  | (k0, v0) :: t, k, v =>
    if beqV k0 k then (k0, v) :: t else (k0, v0) :: insertOrReplace t k v

/-- Build a Python dict from a pair list, inserting left to right; an
unhashable key raises `TypeError` (as `dict(zip(...))` does). -/
def pyDictGo (acc : Store) : List (Value × Value) → Except PyErr Store
  | [] => .ok acc
  | (k, v) :: t =>
    if hashableV k then pyDictGo (insertOrReplace acc k v) t else .error .typeError

/-- Python `dict(pairs)`. -/
def pyDictOfPairs (ps : List (Value × Value)) : Except PyErr Store := pyDictGo [] ps

mutual
/-- Python `lst[::2]`: the elements at even indices. -/
def pyEvens : List α → List α
  | [] => []
  | a :: t => a :: pyOdds t
/-- Python `lst[1::2]`: the elements at odd indices. -/
def pyOdds : List α → List α
  | [] => []
  | _ :: t => pyEvens t
end

/-- `client_side` constant of ser.py line 18. -/
def client_side : Nat := 10

/-- `server_side` constant of ser.py line 19. -/
def server_side : Nat := 20

/-- `ProtocolHandler.handle_simple_string` (ser.py lines 44–49): read a line,
strip CR/LF; bytes on the server side, ASCII-decoded text otherwise. -/
def handle_simple_string (system_side : Nat) (s : ByteStream) :
    Except PyErr (Value × ByteStream) :=
  let r := pyReadline s
  if system_side = server_side then .ok (.bytesV (rstripCRLF r.1), r.2)
  else do
    let t ← asciiDecode (rstripCRLF r.1)
    .ok (.strV t, r.2)

/-- `ProtocolHandler.handle_error` (ser.py lines 51–56): like a simple
string but wrapped in the `Error` namedtuple. -/
def handle_error (system_side : Nat) (s : ByteStream) :
    Except PyErr (Value × ByteStream) :=
  let r := pyReadline s
  if system_side = server_side then .ok (.errV (.bytesV (rstripCRLF r.1)), r.2)
  else do
    let t ← asciiDecode (rstripCRLF r.1)
    .ok (.errV (.strV t), r.2)

/-- `ProtocolHandler.handle_integer` (ser.py lines 58–59): read a line and
parse it with `int()`. -/
def handle_integer (_system_side : Nat) (s : ByteStream) :
    Except PyErr (Value × ByteStream) := do
  let r := pyReadline s
  let i ← pyInt (rstripCRLF r.1)
  .ok (.intV i, r.2)

/-- `ProtocolHandler.handle_string` (ser.py lines 61–71): read the length
line; `-1` is the NULL sentinel, otherwise read `length + 2` bytes and drop
the trailing CR LF. -/
def handle_string (system_side : Nat) (s : ByteStream) :
    Except PyErr (Value × ByteStream) := do
  let r := pyReadline s
  let length ← pyInt (rstripCRLF r.1)
  if length = -1 then .ok (.noneV, r.2)
  else
    let rd := pyRead (length + 2) r.2
    let payload := rd.1.take (rd.1.length - 2)
    if system_side = server_side then .ok (.bytesV payload, rd.2)
    else do
      let t ← asciiDecode payload
      .ok (.strV t, rd.2)

mutual
/-- `ProtocolHandler.handle_request` (ser.py lines 32–42): read the tag
byte — its absence raises `Disconnect` — and dispatch on it; an unknown tag
is the `KeyError` path, `CommandError("bad request")`.  The recursive
`handle_array` (lines 73–77) and `handle_dict` (lines 79–84) bodies are
inlined at their tags: read an element count line, decode that many (twice
as many for a dict) values, and for a dict build `dict(zip(evens, odds))`. -/
def handle_request (fuel : Nat) (system_side : Nat) (s : ByteStream) :
    Except PyErr (Value × ByteStream) :=
  match s with
  | [] => .error .disconnect
  | b :: rest =>
    match fuel with
    | 0 => .error .recursionError
    | f + 1 =>
      if b = 43 then handle_simple_string system_side rest
      else if b = 45 then handle_error system_side rest
      else if b = 58 then handle_integer system_side rest
      else if b = 36 then handle_string system_side rest
      else if b = 42 then do
        let r := pyReadline rest
        let n ← pyInt (rstripCRLF r.1)
        let el ← decodeN f system_side n.toNat r.2
        .ok (.listV el.1, el.2)
      else if b = 37 then do
        let r := pyReadline rest
        let n ← pyInt (rstripCRLF r.1)
        let el ← decodeN f system_side (n.toNat * 2) r.2
        let d ← pyDictOfPairs ((pyEvens el.1).zip (pyOdds el.1))
        .ok (.dictV d, el.2)
      else .error (.commandError "bad request")
/-- Decode `n` successive values, as the comprehensions of ser.py lines 77
and 82–83 do. -/
def decodeN (fuel : Nat) (system_side : Nat) (n : Nat) (s : ByteStream) :
    Except PyErr (List Value × ByteStream) :=
  match n with
  | 0 => .ok ([], s)
  | m + 1 =>
    match fuel with
    | 0 => .error .recursionError
    | f + 1 => do
      let v ← handle_request f system_side s
      let r ← decodeN f system_side m v.2
      .ok (v.1 :: r.1, r.2)
end

mutual
/-- `ProtocolHandler._write` (ser.py lines 99–122).  A `str` is first
encoded to UTF-8 and then written as bulk bytes; bulk bytes get a `$` tag
with a decimal length line; an int gets `:`; a list `*` and a dict `%` with
recursive bodies; `None` is the literal `$-1\r\n`.  The `Error` branch of
line 108 evaluates `error.message`, but the module never binds the plain
name it mentions (`socket.error` was imported as `socket_error`), so that
branch raises `NameError` before writing anything.  The final
"unrecognized type" fallback is unreachable for the `Value` shapes. -/
def pyWrite : Value → Except PyErr (List Nat)
  | .strV s =>
    let b := utf8B s
    .ok ([36] ++ intBytes b.length ++ [13, 10] ++ b ++ [13, 10])
  | .bytesV b => .ok ([36] ++ intBytes b.length ++ [13, 10] ++ b ++ [13, 10])
  | .intV i => .ok ([58] ++ intBytes i ++ [13, 10])
  | .errV _ => .error .nameError
  | .listV l => do
    let body ← pyWriteList l
    .ok ([42] ++ intBytes l.length ++ [13, 10] ++ body)
  | .dictV d => do
    let body ← pyWritePairs d
    .ok ([37] ++ intBytes d.length ++ [13, 10] ++ body)
  | .noneV => .ok [36, 45, 49, 13, 10]
/-- The `for item in data` loop of ser.py lines 111–112. -/
def pyWriteList : List Value → Except PyErr (List Nat)
  | [] => .ok []
  | v :: t => do
    let b ← pyWrite v
    let r ← pyWriteList t
    .ok (b ++ r)
/-- The `for key in data` loop of ser.py lines 115–117: key then value. -/
def pyWritePairs : List (Value × Value) → Except PyErr (List Nat)
  | [] => .ok []
  | (k, v) :: t => do
    let bk ← pyWrite k
    let bv ← pyWrite v
    let r ← pyWritePairs t
    .ok (bk ++ bv ++ r)
end

/-- `ProtocolHandler.write_response` (ser.py lines 90–97): serialize into a
buffer and send it whole; the bytes that reach the peer are exactly the
bytes `_write` produced. -/
def write_response (data : Value) : Except PyErr (List Nat) := pyWrite data

/-- `b"GET"`. -/
def bGET : List Nat := [71, 69, 84]

/-- `b"SET"`. -/
def bSET : List Nat := [83, 69, 84]

/-- `b"DELETE"`. -/
def bDELETE : List Nat := [68, 69, 76, 69, 84, 69]

/-- `b"FLUSH"`. -/
def bFLUSH : List Nat := [70, 76, 85, 83, 72]

/-- `b"MGET"`. -/
def bMGET : List Nat := [77, 71, 69, 84]

/-- `b"MSET"`. -/
def bMSET : List Nat := [77, 83, 69, 84]

/-- Look a key up in the store (`self._kv` is a dict, comparison is `==`);
hashing an unhashable key raises `TypeError`. -/
def kvLookup (kv : Store) (key : Value) : Except PyErr (Option Value) :=
  if hashableV key then .ok ((kv.find? (fun p => beqV p.1 key)).map Prod.snd)
  else .error .typeError

/-- `Server.get` (ser.py lines 193–194): `self._kv.get(key)`, `None` when
absent. -/
def kvGet (kv : Store) (key : Value) : Except PyErr Value := do
  let r ← kvLookup kv key
  .ok (r.getD .noneV)

/-- `Server.set` (ser.py lines 196–198): overwrite and return 1. -/
def kvSet (kv : Store) (key value : Value) : Except PyErr (Store × Value) :=
  if hashableV key then .ok (insertOrReplace kv key value, .intV 1)
  else .error .typeError

/-- `Server.delete` (ser.py lines 200–204): remove the key if present,
returning 1, else 0. -/
def kvDelete (kv : Store) (key : Value) : Except PyErr (Store × Value) := do
  let r ← kvLookup kv key
  match r with
  | some _ => .ok (kv.eraseP (fun p => beqV p.1 key), .intV 1)
  | none => .ok (kv, .intV 0)

/-- `Server.flush` (ser.py lines 206–209): `kvlen = len(self._kv) - 1` is
computed before `clear()`, then returned — one less than the pre-clear entry
count. -/
def kvFlush (kv : Store) : Store × Value :=
  ([], .intV ((kv.length : Int) - 1))

/-- `Server.mget` (ser.py lines 211–212): one `get` per key, in order. -/
def kvMget (kv : Store) (keys : List Value) : Except PyErr (Store × Value) := do
  let vals ← keys.mapM (fun k => kvGet kv k)
  .ok (kv, .listV vals)

/-- The `for key, value in data` loop of `Server.mset` (ser.py lines
216–218): `self._kv[key] = value` raises `TypeError` on an unhashable key. -/
def msetGo (kv : Store) : List (Value × Value) → Except PyErr Store
  | [] => .ok kv
  | (k, v) :: t =>
    if hashableV k then msetGo (insertOrReplace kv k v) t else .error .typeError

/-- `Server.mset` (ser.py lines 214–220): pair up `items[::2]` with
`items[1::2]` — `zip` truncates to the shorter, dropping a final unpaired
argument — apply the pairs left to right and return `len(data)`. -/
def kvMset (kv : Store) (items : List Value) : Except PyErr (Store × Value) := do
  let data := (pyEvens items).zip (pyOdds items)
  let kv2 ← msetGo kv data
  .ok (kv2, .intV (data.length : Int))

/-- Invoke the table entry chosen by `get_response` (ser.py line 191):
`self._commands[command](*data[1:])`.  Each handler destructures its own
positional arguments; a wrong argument count raises `TypeError` at the
call.  Callers only reach this after the membership test, so the final case
is never taken. -/
def runCommand (kv : Store) (command : List Nat) (args : List Value) :
    Except PyErr (Store × Value) :=
  if command = bGET then
    match args with
    | [k] => do
      let v ← kvGet kv k
      .ok (kv, v)
    | _ => .error .typeError
  else if command = bSET then
    match args with
    | [k, v] => kvSet kv k v
    | _ => .error .typeError
  else if command = bDELETE then
    match args with
    | [k] => kvDelete kv k
    | _ => .error .typeError
  else if command = bFLUSH then
    match args with
    | [] => .ok (kvFlush kv)
    | _ => .error .typeError
  else if command = bMGET then kvMget kv args
  else if command = bMSET then kvMset kv args
  else .error (.commandError "unreachable: membership was checked")

/-- `Server.get_response` (ser.py lines 174–191).  A non-list request is
split on whitespace (`data.split()`); a value with no `split` attribute
lands in the bare `except` and becomes `CommandError`.  An empty token list
is `CommandError("Missing command")`.  The first token uppercased selects
the command; an unknown name raises
`CommandError("Unrecognized command: <name>")` — note the capital U of
line 187 — where formatting the message ASCII-decodes the name.  A non-bytes
first token has no `upper`/`decode` the code needs, raising
`AttributeError`. -/
def get_response (kv : Store) (v : Value) : Except PyErr (Store × Value) := do
  let data ← (match v with
    | .listV l => .ok l
    | .bytesV b => .ok ((pySplit b).map Value.bytesV)
    | .strV s =>
      .ok (((s.split (fun c => c.isWhitespace)).filter (fun w => w != "")).map
        Value.strV)
    | _ => (.error (.commandError "Request must be list or simple string.") :
        Except PyErr (List Value)))
  match data with
  | [] => .error (.commandError "Missing command")
  | d0 :: args =>
    match d0 with
    | .bytesV b =>
      let command := upperB b
      if command = bGET || command = bSET || command = bDELETE
          || command = bFLUSH || command = bMGET || command = bMSET then
        runCommand kv command args
      else do
        let name ← asciiDecode command
        .error (.commandError ("Unrecognized command: " ++ name))
    | .strV _ =>
      -- The uppercased str is not among the bytes keys of the table, and
      -- formatting the message calls `.decode` on it, which str lacks.
      .error .attributeError
    | _ => .error .attributeError

/-- How a connection session ends. -/
inductive SessionEnd
  /-- `Disconnect` was raised and caught: the loop breaks normally. -/
  | closed
  /-- An exception no `except` clause catches tears the handler down. -/
  | crashed (e : PyErr)
  /-- Loop fuel ran out in the model; the session is still alive. -/
  | running
  deriving DecidableEq, Repr

/-- `Server.connection_handler` (ser.py lines 148–168), one session: loop
reading a request (server side), dispatching it and writing the response.
Only `Disconnect` is caught around the parse; only `CommandError` is caught
around the dispatch, becoming `resp = Error(exc.args[0])`; every other
exception — including any raised while encoding the response — propagates
and kills the session.  The result is the final store, the bytes written
back to the peer, and how the session ended.  Decode fuel `2 * |s| + 2`
always exceeds the recursion depth a stream of length `|s|` can demand. -/
def connection_loop (fuel : Nat) (kv : Store) (s : ByteStream)
    (out : List Nat) : Store × List Nat × SessionEnd :=
  match fuel with
  | 0 => (kv, out, .running)
  | f + 1 =>
    match handle_request (2 * s.length + 2) server_side s with
    | .error .disconnect => (kv, out, .closed)
    | .error e => (kv, out, .crashed e)
    | .ok (data, s2) =>
      match get_response kv data with
      | .ok (kv2, resp) =>
        match write_response resp with
        | .ok b => connection_loop f kv2 s2 (out ++ b)
        | .error e => (kv2, out, .crashed e)
      | .error (.commandError m) =>
        match write_response (.errV (.strV m)) with
        | .ok b => connection_loop f kv s2 (out ++ b)
        | .error e => (kv, out, .crashed e)
      | .error e => (kv, out, .crashed e)

/-- The response part of a dispatch result, discarding the store. -/
def respOf : Except PyErr (Store × Value) → Except PyErr Value
  | .ok r => .ok r.2
  | .error e => .error e

/-- Whether an exception is a `CommandError` (the only kind the dispatch
boundary converts into an `Error` response). -/
def isCmdError : PyErr → Bool
  | .commandError _ => true
  | _ => false

/-- The interleaved element list `[k0, v0, k1, v1, ...]` a wire map carries. -/
def flatPairs : List (Value × Value) → List Value
  | [] => []
  | (k, v) :: t => k :: v :: flatPairs t

/-- `k` differs (as a key) from every key of `t`. -/
def keyFreshIn (k : Value) (t : List (Value × Value)) : Bool :=
  t.all (fun p => !(beqV k p.1))

/-- All keys of the pair list are pairwise distinct. -/
def distinctKeys : List (Value × Value) → Bool
  | [] => true
  | (k, _) :: t => keyFreshIn k t && distinctKeys t

mutual
/-- The round-trip domain of claim C5: values built from bytes, integers,
`None`, lists and dicts, where dict keys are hashable and pairwise distinct
(a Python dict cannot hold an unhashable or duplicate key).  The
`SimpleText`/`ErrorText` shapes are the claim's exempted ones. -/
def representableV : Value → Bool
  | .bytesV _ => true
  | .intV _ => true
  | .noneV => true
  | .strV _ => false
  | .errV _ => false
  | .listV l => representableL l
  | .dictV d => distinctKeys d && representableP d
/-- `representableV` on every element. -/
def representableL : List Value → Bool
  | [] => true
  | v :: t => representableV v && representableL t
/-- `representableV` on every key and value, keys hashable. -/
def representableP : List (Value × Value) → Bool
  | [] => true
  | (k, v) :: t =>
    hashableV k && representableV k && representableV v && representableP t
end

section SanityChecks

example : pyReadline [97, 13, 10, 98] = ([97, 13, 10], [98]) := rfl

example : pyInt [45, 49] = .ok (-1) := rfl

example : pyInt [] = .error .valueError := rfl

example : intBytes (-12) = [45, 49, 50] := rfl

example : pyWrite (.listV [.intV 1, .bytesV [97]]) =
    .ok [42, 50, 13, 10, 58, 49, 13, 10, 36, 49, 13, 10, 97, 13, 10] := rfl

example : handle_request 9 server_side
    [42, 50, 13, 10, 58, 49, 13, 10, 36, 49, 13, 10, 97, 13, 10] =
    .ok (.listV [.intV 1, .bytesV [97]], []) := rfl

example : handle_request 9 server_side [36, 45, 49, 13, 10] = .ok (.noneV, []) := rfl

example : handle_request 9 client_side [36, 49, 13, 10, 97, 13, 10] =
    .ok (.strV "a", []) := rfl

-- SET k v; GET k
example : get_response []
    (.listV [.bytesV bSET, .bytesV [107], .bytesV [118]]) =
    .ok ([(.bytesV [107], .bytesV [118])], .intV 1) := rfl

example : get_response [(.bytesV [107], .bytesV [118])]
    (.listV [.bytesV [103, 101, 116], .bytesV [107]]) =
    .ok ([(.bytesV [107], .bytesV [118])], .bytesV [118]) := rfl

-- a whitespace-split simple request: "GET k"
example : get_response [] (.bytesV [71, 69, 84, 32, 107]) =
    .ok ([], .noneV) := rfl

-- unknown command FOO
example : get_response [] (.listV [.bytesV [70, 79, 79]]) =
    .error (.commandError "Unrecognized command: FOO") := rfl

-- a complete session: one SET request, then the client goes away
example : connection_loop 3 []
    [42, 51, 13, 10, 36, 51, 13, 10, 83, 69, 84, 13, 10, 36, 49, 13, 10,
     107, 13, 10, 36, 49, 13, 10, 118, 13, 10] [] =
    ([(.bytesV [107], .bytesV [118])], [58, 49, 13, 10], .closed) := rfl

end SanityChecks

/-! ## General helper lemmas -/

/-- Induction over `Value` that hands membership hypotheses for the nested
lists. -/
theorem Value.myInd (P : Value → Prop)
    (h1 : ∀ s, P (.bytesV s)) (h2 : ∀ s, P (.strV s)) (h3 : ∀ i, P (.intV i))
    (h4 : P .noneV)
    (h5 : ∀ l, (∀ x ∈ l, P x) → P (.listV l))
    (h6 : ∀ d, (∀ k v, (k, v) ∈ d → P k ∧ P v) → P (.dictV d))
    (h7 : ∀ m, P m → P (.errV m)) : ∀ v, P v := by
  intro v
  match v with
  | .bytesV s => exact h1 s
  | .strV s => exact h2 s
  | .intV i => exact h3 i
  | .noneV => exact h4
  | .listV l =>
    apply h5
    intro x hx
    have hs := List.sizeOf_lt_of_mem hx
    exact Value.myInd P h1 h2 h3 h4 h5 h6 h7 x
  | .dictV d =>
    apply h6
    intro k v hkv
    have hs := List.sizeOf_lt_of_mem hkv
    have hks : sizeOf (k, v) = 1 + sizeOf k + sizeOf v := by simp
    constructor
    · exact Value.myInd P h1 h2 h3 h4 h5 h6 h7 k
    · exact Value.myInd P h1 h2 h3 h4 h5 h6 h7 v
  | .errV m => exact h7 m (Value.myInd P h1 h2 h3 h4 h5 h6 h7 m)
termination_by v => sizeOf v
decreasing_by
  all_goals simp_all
  all_goals omega

/-- `beqV` is reflexive. -/
theorem beqV_refl : ∀ v, beqV v v = true := by
  intro v
  induction v using Value.myInd with
  | h1 s => simp [beqV]
  | h2 s => simp [beqV]
  | h3 i => simp [beqV]
  | h4 => simp [beqV]
  | h5 l ih =>
    simp only [beqV]
    induction l with
    | nil => simp [beqL]
    | cons a t iht =>
      simp only [beqL, Bool.and_eq_true]
      constructor
      · exact ih a (by simp)
      · exact iht (fun x hx => ih x (by simp [hx]))
  | h6 d ih =>
    simp only [beqV]
    induction d with
    | nil => simp [beqP]
    | cons a t iht =>
      obtain ⟨k, v⟩ := a
      simp only [beqP, Bool.and_eq_true]
      refine ⟨⟨(ih k v (by simp)).1, (ih k v (by simp)).2⟩, ?_⟩
      exact iht (fun k2 v2 h2 => ih k2 v2 (by simp [h2]))
  | h7 m ih => simpa [beqV] using ih

/-- Values that `beqV` separates are unequal. -/
theorem ne_of_beqV_false (a b : Value) (h : beqV a b = false) : a ≠ b := by
  intro he
  rw [he, beqV_refl] at h
  exact absurd h (by simp)

/-! ## Claim C1: CommandError handling at the connection loop -/

/-- C1 (code bug).  The claim says a `CommandError` raised during decoding
or dispatch is caught at the loop, turned into an `ErrorText` response to
the same peer, and the loop continues, only a Disconnect ending the
session.  The code diverges twice.  A session that sends the well-formed
request `*1\r\n$3\r\nFOO\r\n` (dispatch raises CommandError) does catch the
exception, but encoding the `Error` response raises `NameError` (the
`error.message` slip of ser.py line 108), so the session dies with nothing
written back.  A session that sends the bad tag byte `x` raises
`CommandError` during parsing, which the loop does not catch at all.  A
session whose input is exhausted does end with a normal Disconnect. -/
theorem C1_command_error_handling_code_bug :
    connection_loop 3 []
      [42, 49, 13, 10, 36, 51, 13, 10, 70, 79, 79, 13, 10] [] =
      ([], [], .crashed .nameError) ∧
    connection_loop 3 [] [120] [] =
      ([], [], .crashed (.commandError "bad request")) ∧
    connection_loop 3 [] [] [] = ([], [], .closed) :=
  ⟨rfl, rfl, rfl⟩

/-! ## Claim C2: ErrorText wire encoding -/

/-- C2 (code bug).  The claim says encoding `ErrorText m` yields the tag
byte `-`, the message bytes, then CR LF.  The `Error` branch of `_write`
(ser.py line 108) instead evaluates `error.message`, and the module never
binds the plain name `error` (ser.py line 7 imports `socket.error` as
`socket_error`), so every attempt to encode an `Error` value raises
`NameError` and writes nothing. -/
theorem C2_error_encode_raises_name_exception :
    (∀ m : Value, pyWrite (.errV m) = .error .nameError) ∧
    write_response (.errV (.strV "x")) = .error .nameError :=
  ⟨fun _ => rfl, rfl⟩

/-! ## Claim C3: Flush semantics -/

/-- C3 (confirmed).  `flush` empties the store and returns one less than
the number of entries that existed before clearing: `len(self._kv) - 1` is
computed before `clear()` (ser.py lines 206–209).  The same holds through
dispatch of the `FLUSH` command. -/
theorem C3_flush_clears_and_returns_count_minus_one (kv : Store) :
    kvFlush kv = ([], .intV ((kv.length : Int) - 1)) ∧
    get_response kv (.listV [.bytesV bFLUSH]) =
      .ok ([], .intV ((kv.length : Int) - 1)) := by
  constructor
  · rfl
  · rfl

/-! ## Claim C10: Array as a Map key -/

/-- C10 (confirmed).  Decoding the wire map `%1\r\n*0\r\n:1\r\n`, whose key
position holds a nested array, fails with `TypeError` (the decoded list is
unhashable, so `dict(zip(...))` rejects it) — not with a `Map` value, not
with `Disconnect`, and not with `CommandError` — and no handler catches it:
the session crashes. -/
theorem C10_array_key_raises_uncaught_type_exception :
    handle_request 9 server_side
      [37, 49, 13, 10, 42, 48, 13, 10, 58, 49, 13, 10] =
      .error .typeError ∧
    PyErr.typeError ≠ PyErr.disconnect ∧
    isCmdError .typeError = false ∧
    connection_loop 3 [] [37, 49, 13, 10, 42, 48, 13, 10, 58, 49, 13, 10] [] =
      ([], [], .crashed .typeError) :=
  ⟨rfl, by decide, rfl, rfl⟩

/-! ## Claim C4: premature end of stream -/

/-- C4 (counterexample).  The claim says a premature end of stream during a
line read (after the tag byte) raises `Disconnect`.  On the stream holding
only the tag byte `:`, `readline()` returns the empty byte string and
`int(b"")` raises `ValueError`, which is not `Disconnect`. -/
theorem C4_counterexample_eof_in_line_read_not_disconnect :
    handle_request 5 server_side [58] = .error .valueError ∧
    PyErr.valueError ≠ PyErr.disconnect :=
  ⟨rfl, by decide⟩

/-- `readline()` on a stream with no LF byte consumes everything. -/
theorem pyReadline_no_lf (bs : List Nat)
    (h : bs.all (fun b => b != 10) = true) : pyReadline bs = (bs, []) := by
  induction bs with
  | nil => rfl
  | cons b t ih =>
    simp only [List.all_cons, Bool.and_eq_true, bne_iff_ne] at h
    simp [pyReadline, h.1, ih h.2]

/-- C4 (amended).  Premature end of stream is a `Disconnect` only at a
tag-byte position (at the top of the stream or between the elements of an
array or map).  After a tag byte, truncation is not a `Disconnect`: a line
read that hits end of input returns the bytes seen so far — for `+` this
silently yields the truncated text, for `:` (and the `$` length line) the
subsequent `int(b"")` raises `ValueError` — and a bulk payload cut short is
silently truncated (`$3` followed by a single byte yields empty bytes). -/
theorem C4_amended_truncation_not_disconnect (f side : Nat) (bs : List Nat)
    (h : bs.all (fun b => b != 10) = true) :
    handle_request f side [] = .error .disconnect ∧
    handle_request 5 server_side [58] = .error .valueError ∧
    handle_request (f + 1) server_side (43 :: bs) =
      .ok (.bytesV (rstripCRLF bs), []) ∧
    handle_request 5 server_side [36, 51, 13, 10, 97] = .ok (.bytesV [], []) ∧
    handle_request 5 server_side [42, 49, 13, 10] = .error .disconnect := by
  refine ⟨?_, rfl, ?_, rfl, rfl⟩
  · cases f <;> rfl
  · simp [handle_request, handle_simple_string, pyReadline_no_lf bs h,
      server_side]

/-- Instantiation of `C4_amended_truncation_not_disconnect` at the
truncated stream `+a` (no terminator): the decoder returns `b"a"` and never
raises `Disconnect` after the tag byte. -/
theorem C4_amended_witness :
    handle_request 4 server_side [] = .error .disconnect ∧
    handle_request 5 server_side [58] = .error .valueError ∧
    handle_request 4 server_side [43, 97] = .ok (.bytesV [97], []) ∧
    handle_request 5 server_side [36, 51, 13, 10, 97] = .ok (.bytesV [], []) ∧
    handle_request 5 server_side [42, 49, 13, 10] = .error .disconnect :=
  C4_amended_truncation_not_disconnect 3 server_side [97] (by decide)

/-! ## Claim C6: duplicate Map keys -/

/-- C6 (counterexample).  The claim says decoding a wire map with duplicate
keys preserves all pairs as given.  Decoding
`%2\r\n:1\r\n:10\r\n:1\r\n:20\r\n` — pairs (1, 10) and (1, 20) — instead
yields the one-entry dict `[(1, 20)]`: `dict(zip(...))` collapses the
duplicate key, the later value winning. -/
theorem C6_counterexample_duplicate_keys_collapsed :
    handle_request 9 server_side
      [37, 50, 13, 10, 58, 49, 13, 10, 58, 49, 48, 13, 10, 58, 49, 13, 10,
       58, 50, 48, 13, 10] =
      .ok (.dictV [(.intV 1, .intV 20)], []) ∧
    Value.dictV [(.intV 1, .intV 20)] ≠
      Value.dictV [(.intV 1, .intV 10), (.intV 1, .intV 20)] :=
  ⟨rfl, ne_of_beqV_false _ _ rfl⟩

/-! ## Claim C7: unknown command message -/

/-- C7 (counterexample).  The claim says the unknown-command message is
exactly `unrecognized command: <name>`.  Dispatching `FOO` raises
`CommandError` with the message `Unrecognized command: FOO` — ser.py line
187 capitalizes the U — which differs from the claimed text. -/
theorem C7_counterexample_message_capitalization :
    get_response [] (.listV [.bytesV [70, 79, 79]]) =
      .error (.commandError "Unrecognized command: FOO") ∧
    "Unrecognized command: FOO" ≠ "unrecognized command: FOO" :=
  ⟨rfl, by decide⟩

/-- Binding a successful `Except` computation just continues. -/
theorem okBind (a : α) (f : α → Except PyErr β) :
    (do
      let x ← (Except.ok a : Except PyErr α)
      f x) = f a := rfl

/-- Binding a failed `Except` computation propagates the failure. -/
theorem errBind (e : PyErr) (f : α → Except PyErr β) :
    (do
      let x ← (Except.error e : Except PyErr α)
      f x) = Except.error e := rfl

/-- `bytes.upper()` keeps ASCII bytes ASCII. -/
theorem upperB_ascii (name : List Nat)
    (h : name.all (fun b => b < 128) = true) :
    (upperB name).all (fun b => b < 128) = true := by
  simp only [upperB, List.all_map, List.all_eq_true, Function.comp,
    decide_eq_true_eq] at h ⊢
  intro b hb
  have hbx := h b hb
  split
  case isTrue hc =>
    simp only [Bool.and_eq_true, decide_eq_true_eq] at hc
    exact Nat.lt_of_le_of_lt (Nat.sub_le b 32) hbx
  case isFalse hc => exact hbx

/-- C7 (amended).  For every request whose first token, uppercased, is not
one of the six command names (and is ASCII-decodable), dispatch fails with
`CommandError` whose message is exactly
`Unrecognized command: <NAME>` — capital U, and the name as uppercased —
so the response value the handler builds is
`Error("Unrecognized command: FOO")` for command `FOO`. -/
theorem C7_amended_unrecognized_command_message (kv : Store)
    (name : List Nat) (args : List Value)
    (hA : name.all (fun b => b < 128) = true)
    (h1 : upperB name ≠ bGET) (h2 : upperB name ≠ bSET)
    (h3 : upperB name ≠ bDELETE) (h4 : upperB name ≠ bFLUSH)
    (h5 : upperB name ≠ bMGET) (h6 : upperB name ≠ bMSET) :
    get_response kv (.listV (.bytesV name :: args)) =
      .error (.commandError ("Unrecognized command: " ++
        asciiStrOf (upperB name))) := by
  have hAsc : asciiDecode (upperB name) = .ok (asciiStrOf (upperB name)) := by
    simp [asciiDecode, upperB_ascii name hA]
  simp [get_response, okBind, h1, h2, h3, h4, h5, h6, hAsc]

/-- Instantiation of `C7_amended_unrecognized_command_message` at the
lowercase command `foo`: the message is `Unrecognized command: FOO`. -/
theorem C7_amended_witness :
    get_response [] (.listV [.bytesV [102, 111, 111]]) =
      .error (.commandError "Unrecognized command: FOO") := by
  have h := C7_amended_unrecognized_command_message [] [102, 111, 111] []
    (by decide) (by decide) (by decide) (by decide) (by decide) (by decide)
    (by decide)
  simpa [upperB, asciiStrOf] using h

/-! ## Claim C8: wrong arity -/

/-- C8 (counterexample).  The claim says a recognized command called with
the wrong number of positional arguments surfaces as a `CommandError`.
Dispatching `GET` with zero arguments instead raises `TypeError` — a
distinct, unhandled kind — which no clause maps to `CommandError`. -/
theorem C8_counterexample_wrong_arity_type_exception :
    get_response [] (.listV [.bytesV bGET]) = .error .typeError ∧
    isCmdError .typeError = false :=
  ⟨rfl, rfl⟩

/-- C8 (amended).  A recognized command invoked with the wrong number of
positional arguments raises `TypeError` — Python's generic invocation
error — which nothing maps to `CommandError`: `GET` with zero or two
arguments and `SET` with one all produce `TypeError` from dispatch, and a
session dispatching such a request crashes instead of receiving an
`ErrorText` response. -/
theorem C8_amended_wrong_arity_uncaught (kv : Store) (a b2 : Value) :
    get_response kv (.listV [.bytesV bGET]) = .error .typeError ∧
    get_response kv (.listV [.bytesV bGET, a, b2]) = .error .typeError ∧
    get_response kv (.listV [.bytesV bSET, a]) = .error .typeError ∧
    connection_loop 3 []
      [42, 49, 13, 10, 36, 51, 13, 10, 71, 69, 84, 13, 10] [] =
      ([], [], .crashed .typeError) :=
  ⟨rfl, rfl, rfl, rfl⟩

/-! ## Claim C9: odd-length MSET -/

/-- C9 (counterexample).  The claim says every odd-length argument list to
`mset` applies its ⌊n/2⌋ pairs and returns ⌊n/2⌋ with no error.  The
odd-length argument list `[[], b"a", b"b"]` instead raises `TypeError`:
its one applied pair uses the unhashable empty list as a key. -/
theorem C9_counterexample_unhashable_key :
    kvMset [] [.listV [], .bytesV [97], .bytesV [98]] = .error .typeError ∧
    isCmdError .typeError = false :=
  ⟨rfl, rfl⟩

/-- Lengths of the even- and odd-position slices. -/
theorem pyEvens_pyOdds_length (l : List α) :
    (pyEvens l).length = (l.length + 1) / 2 ∧
    (pyOdds l).length = l.length / 2 := by
  induction l with
  | nil => simp [pyEvens, pyOdds]
  | cons a t ih =>
    constructor
    · simp only [pyEvens, List.length_cons, ih.2]
      omega
    · simp only [pyOdds, List.length_cons, ih.1]

/-- Appending one element to an even-length list extends the even slice and
leaves the odd slice unchanged. -/
theorem evensOdds_append_even (l : List α) (x : α) (h : l.length % 2 = 0) :
    pyEvens (l ++ [x]) = pyEvens l ++ [x] ∧ pyOdds (l ++ [x]) = pyOdds l := by
  match l with
  | [] => simp [pyEvens, pyOdds]
  | [a] => simp at h
  | a :: b :: t =>
    have ht : t.length % 2 = 0 := by
      simp only [List.length_cons] at h
      omega
    have ih := evensOdds_append_even t x ht
    constructor
    · simp [pyEvens, pyOdds, ih.1]
    · simp [pyEvens, pyOdds, ih.2]
termination_by l.length

/-- `zip` ignores an extra element on the left past the common length. -/
theorem zip_append_right_eq (e : List α) (o : List β) (x : α)
    (h : e.length = o.length) : (e ++ [x]).zip o = e.zip o := by
  induction e generalizing o with
  | nil =>
    match o with
    | [] => rfl
  | cons a t ih =>
    match o with
    | b :: o2 =>
      simp only [List.length_cons] at h
      simp [List.zip_cons_cons, ih o2 (by omega)]

/-- When every key to be applied is hashable, the `mset` loop succeeds. -/
theorem msetGo_ok (data : List (Value × Value))
    (hh : ∀ p ∈ data, hashableV p.1 = true) :
    ∀ kv, ∃ kv2, msetGo kv data = .ok kv2 := by
  induction data with
  | nil => exact fun kv => ⟨kv, rfl⟩
  | cons p t ih =>
    intro kv
    obtain ⟨k, v⟩ := p
    have hk : hashableV k = true := hh (k, v) (by simp)
    obtain ⟨kv2, h2⟩ := ih (fun q hq => hh q (by simp [hq])) (insertOrReplace kv k v)
    exact ⟨kv2, by simp [msetGo, hk, h2]⟩

/-- C9 (amended).  For every odd-length argument list whose applied keys
are hashable, the final unpaired argument is silently ignored — `mset` on
`items ++ [x]` (with `items` of even length) equals `mset` on `items` — the
⌊n/2⌋ pairs are applied left to right with no error, and ⌊n/2⌋ is
returned.  (An unhashable applied key instead raises `TypeError`, as the
counterexample shows.) -/
theorem C9_amended_odd_mset_ignores_last (kv : Store) (items : List Value)
    (x : Value) (hev : items.length % 2 = 0)
    (hh : ∀ p ∈ (pyEvens items).zip (pyOdds items), hashableV p.1 = true) :
    kvMset kv (items ++ [x]) = kvMset kv items ∧
    respOf (kvMset kv (items ++ [x])) =
      .ok (.intV (((items ++ [x]).length / 2 : Nat))) := by
  obtain ⟨he, ho⟩ := evensOdds_append_even items x hev
  have hlen : (pyEvens items).length = (pyOdds items).length := by
    obtain ⟨h1, h2⟩ := pyEvens_pyOdds_length (l := items)
    rw [h1, h2]
    omega
  have hz : (pyEvens (items ++ [x])).zip (pyOdds (items ++ [x])) =
      (pyEvens items).zip (pyOdds items) := by
    rw [he, ho, zip_append_right_eq _ _ _ hlen]
  have hcount : ((pyEvens items).zip (pyOdds items)).length =
      (items ++ [x]).length / 2 := by
    rw [List.length_zip]
    obtain ⟨h1, h2⟩ := pyEvens_pyOdds_length (l := items)
    rw [h1, h2]
    simp only [List.length_append, List.length_cons, List.length_nil]
    omega
  obtain ⟨kv2, hm⟩ := msetGo_ok _ hh kv
  constructor
  · simp only [kvMset, hz]
  · simp only [kvMset, hz, hm, okBind, respOf, hcount]

/-! ## Digit, line and parse lemmas for the round-trip claims -/

theorem natFromDigits_append (ds : List Nat) (d : Nat) :
    natFromDigits (ds ++ [d]) = 10 * natFromDigits ds + (d - 48) := by
  simp [natFromDigits, List.foldl_append]

theorem natToDigitsGo_spec (f : Nat) : ∀ n : Nat, n < f →
    (natToDigitsGo f n).all isDigitB = true ∧ natToDigitsGo f n ≠ [] ∧
    natFromDigits (natToDigitsGo f n) = n := by
  induction f with
  | zero => intro n h; omega
  | succ f1 ih =>
    intro n h
    by_cases h10 : n < 10
    · refine ⟨?_, ?_, ?_⟩
      · simp [natToDigitsGo, h10, isDigitB]
        omega
      · simp [natToDigitsGo, h10]
      · simp [natToDigitsGo, h10, natFromDigits]
    · have hrec := ih (n / 10) (by omega)
      refine ⟨?_, ?_, ?_⟩
      · simp only [natToDigitsGo, if_neg h10, List.all_append, hrec.1,
          Bool.true_and, List.all_cons, List.all_nil, Bool.and_true, isDigitB]
        simp only [Bool.and_eq_true, decide_eq_true_eq]
        omega
      · simp [natToDigitsGo, h10]
      · simp only [natToDigitsGo, if_neg h10, natFromDigits_append, hrec.2.2]
        omega

theorem natToDigits_spec (n : Nat) :
    (natToDigits n).all isDigitB = true ∧ natToDigits n ≠ [] ∧
    natFromDigits (natToDigits n) = n :=
  natToDigitsGo_spec (n + 1) n (Nat.lt_succ_self n)

/-- A decimal digit byte is none of the separator or sign bytes. -/
theorem digit_class (d : Nat) (h : isDigitB d = true) :
    d ≠ 10 ∧ d ≠ 13 ∧ d ≠ 43 ∧ d ≠ 45 ∧ isPySpace d = false := by
  simp only [isDigitB, Bool.and_eq_true, decide_eq_true_eq] at h
  refine ⟨by omega, by omega, by omega, by omega, ?_⟩
  simp only [isPySpace, Bool.or_eq_false_iff, decide_eq_false_iff_not]
  omega

theorem dropWhile_all_false (p : α → Bool) (l : List α)
    (h : ∀ b ∈ l, p b = false) : l.dropWhile p = l := by
  induction l with
  | nil => rfl
  | cons a t ih =>
    simp only [List.dropWhile_cons, h a (by simp)]
    simp

/-- Stripping whitespace from a string with no whitespace is the identity. -/
theorem stripWS_id (l : List Nat) (h : ∀ b ∈ l, isPySpace b = false) :
    stripWS l = l := by
  unfold stripWS
  rw [dropWhile_all_false isPySpace l h]
  rw [dropWhile_all_false isPySpace l.reverse (fun b hb => h b (by simpa using hb))]
  simp

/-- `rstrip(b"\r\n")` removes exactly the terminator from a clean line. -/
theorem rstripCRLF_append (x : List Nat) (h : ∀ b ∈ x, b ≠ 13 ∧ b ≠ 10) :
    rstripCRLF (x ++ [13, 10]) = x := by
  unfold rstripCRLF
  have hx : ([13, 10] : List Nat).reverse = [10, 13] := rfl
  rw [List.reverse_append, hx]
  have h10 : ((10 : Nat) = 13 || (10 : Nat) = 10) = true := by decide
  have h13 : ((13 : Nat) = 13 || (13 : Nat) = 10) = true := by decide
  simp only [List.cons_append, List.nil_append, List.dropWhile_cons, h10, h13,
    if_true]
  rw [dropWhile_all_false _ x.reverse ?_]
  · simp
  · intro b hb
    have hbx := h b (by simpa using hb)
    simp only [Bool.or_eq_false_iff, decide_eq_false_iff_not]
    exact ⟨hbx.1, hbx.2⟩

/-- `int()` on a nonempty all-digit byte string parses its value. -/
theorem pyInt_digits (ds : List Nat) (hall : ds.all isDigitB = true)
    (hne : ds ≠ []) : pyInt ds = .ok (natFromDigits ds : Nat) := by
  have hs : stripWS ds = ds := by
    apply stripWS_id
    intro b hb
    have := List.all_eq_true.mp hall b hb
    exact (digit_class b this).2.2.2.2
  match ds with
  | b :: t =>
    have hb : isDigitB b = true := by
      have := List.all_eq_true.mp hall b (by simp)
      exact this
    have hcls := digit_class b hb
    simp only [pyInt, hs, if_neg hcls.2.2.1, if_neg hcls.2.2.2.1, hall, if_pos]

/-- `int()` inverts `b"%d"`: `pyInt (intBytes i) = i`. -/
theorem pyInt_intBytes (i : Int) : pyInt (intBytes i) = .ok i := by
  by_cases hneg : i < 0
  · have hd := natToDigits_spec (-i).toNat
    have hs : stripWS (45 :: natToDigits (-i).toNat) =
        45 :: natToDigits (-i).toNat := by
      apply stripWS_id
      intro b hb
      rcases List.mem_cons.mp hb with hb45 | hbd
      · subst hb45
        decide
      · exact (digit_class b (List.all_eq_true.mp hd.1 b hbd)).2.2.2.2
    have hne : (natToDigits (-i).toNat).isEmpty = false := by
      cases hx : natToDigits (-i).toNat with
      | nil => exact absurd hx hd.2.1
      | cons a t => rfl
    simp only [intBytes, if_pos hneg, pyInt, hs]
    have h45 : ¬((45 : Nat) = 43) := by decide
    simp only [if_neg h45, if_pos rfl, hne, hd.1, Bool.not_false, Bool.and_self,
      if_pos, hd.2.2]
    congr 1
    omega
  · have hd := natToDigits_spec i.toNat
    simp only [intBytes, if_neg hneg]
    rw [pyInt_digits (natToDigits i.toNat) hd.1 hd.2.1, hd.2.2]
    congr 1
    omega

/-- No CR or LF byte occurs in a rendered integer. -/
theorem intBytes_no_crlf (i : Int) : ∀ b ∈ intBytes i, b ≠ 13 ∧ b ≠ 10 := by
  intro b hb
  unfold intBytes at hb
  split at hb
  · rcases List.mem_cons.mp hb with h45 | hbd
    · subst h45
      exact ⟨by decide, by decide⟩
    · have := digit_class b (List.all_eq_true.mp (natToDigits_spec _).1 b hbd)
      exact ⟨this.2.1, this.1⟩
  · have := digit_class b (List.all_eq_true.mp (natToDigits_spec _).1 b hb)
    exact ⟨this.2.1, this.1⟩

/-- `readline()` consumes exactly one LF-terminated line. -/
theorem pyReadline_line (x : List Nat) (r : ByteStream)
    (h : ∀ b ∈ x, b ≠ 10) : pyReadline (x ++ 10 :: r) = (x ++ [10], r) := by
  induction x with
  | nil => simp [pyReadline]
  | cons b t ih =>
    simp [pyReadline, h b (by simp), ih (fun c hc => h c (by simp [hc]))]

/-- Reading and parsing one encoded integer header line. -/
theorem intLine (i : Int) (rest : ByteStream) :
    pyReadline (intBytes i ++ [13, 10] ++ rest) =
      (intBytes i ++ [13, 10], rest) ∧
    pyInt (rstripCRLF (intBytes i ++ [13, 10])) = .ok i := by
  constructor
  · have hx : intBytes i ++ [13, 10] ++ rest =
        (intBytes i ++ [13]) ++ 10 :: rest := by simp
    rw [hx, pyReadline_line (intBytes i ++ [13]) rest ?_]
    · simp
    · intro b hb
      rcases List.mem_append.mp hb with hbi | hb13
      · exact (intBytes_no_crlf i b hbi).2
      · simp only [List.mem_singleton] at hb13
        subst hb13
        decide
  · rw [rstripCRLF_append (intBytes i) (intBytes_no_crlf i), pyInt_intBytes]

/-- Instantiation of `C9_amended_odd_mset_ignores_last` at the odd-length
argument list `[b"a", b"b", b"c"]`: the pair (a, b) is applied, `c` is
ignored, and 1 is returned. -/
theorem C9_amended_witness :
    kvMset [] [.bytesV [97], .bytesV [98], .bytesV [99]] =
      kvMset [] [.bytesV [97], .bytesV [98]] ∧
    respOf (kvMset [] [.bytesV [97], .bytesV [98], .bytesV [99]]) =
      .ok (.intV 1) :=
  C9_amended_odd_mset_ignores_last [] [.bytesV [97], .bytesV [98]]
    (.bytesV [99]) (by decide) (by decide)

/-! ## Round-trip machinery -/

/-- Every `Value` has positive size. -/
theorem sizeOfV_pos (v : Value) : 1 ≤ sizeOf v := by
  cases v <;> simp

/-- Decoding one encoded integer line. -/
theorem handle_integer_encoded (i : Int) (rest : ByteStream) :
    handle_integer server_side (intBytes i ++ [13, 10] ++ rest) =
      .ok (.intV i, rest) := by
  have hl := intLine i rest
  simp only [handle_integer, hl.1, hl.2, okBind]

/-- Decoding one encoded bulk-bytes body (after the `$` tag). -/
theorem handle_string_encoded (b : List Nat) (rest : ByteStream) :
    handle_string server_side
      (intBytes b.length ++ [13, 10] ++ (b ++ [13, 10] ++ rest)) =
      .ok (.bytesV b, rest) := by
  have hl := intLine (b.length : Int) (b ++ [13, 10] ++ rest)
  simp only [handle_string, hl.1, hl.2, okBind]
  have hne : ¬((b.length : Int) = -1) := by omega
  rw [if_neg hne]
  have hge : ¬((b.length : Int) + 2 < 0) := by omega
  have ht : ((b.length : Int) + 2).toNat = b.length + 2 := by omega
  have hlen2 : (b ++ [13, 10]).length = b.length + 2 := by simp
  have hassoc : b ++ [13, 10] ++ rest = (b ++ [13, 10]) ++ rest := by simp
  simp only [pyRead, if_neg hge, ht, hassoc, List.take_left' hlen2,
    List.drop_left' hlen2]
  have htk : (b ++ [13, 10]).length - 2 = b.length := by simp
  simp only [htk]
  have htk2 : (b ++ [13, 10]).take b.length = b := List.take_left b [13, 10]
  simp [htk2]

/-- Decoding the NULL sentinel body `-1\r\n` (after the `$` tag). -/
theorem handle_string_null (rest : ByteStream) :
    handle_string server_side ([45, 49, 13, 10] ++ rest) =
      .ok (.noneV, rest) := by
  have h1 : ([45, 49, 13, 10] : List Nat) ++ rest = [45, 49, 13] ++ 10 :: rest := by
    simp
  have hrl := pyReadline_line [45, 49, 13] rest (by decide)
  have h2 : ([45, 49, 13] : List Nat) ++ [10] = [45, 49] ++ [13, 10] := by decide
  have hrs : rstripCRLF ([45, 49] ++ [13, 10]) = [45, 49] :=
    rstripCRLF_append [45, 49] (by decide)
  have hpi : pyInt [45, 49] = .ok (-1) := rfl
  simp only [handle_string, h1, hrl, h2, hrs, hpi, okBind]
  simp

/-- The even/odd slices of the interleaved pair list recover the keys and
the values. -/
theorem flatPairs_evens_odds (d : List (Value × Value)) :
    pyEvens (flatPairs d) = d.map Prod.fst ∧
    pyOdds (flatPairs d) = d.map Prod.snd := by
  induction d with
  | nil => exact ⟨rfl, rfl⟩
  | cons p t ih =>
    obtain ⟨k, v⟩ := p
    constructor
    · simp [flatPairs, pyEvens, pyOdds, ih.1]
    · simp [flatPairs, pyEvens, pyOdds, ih.2]

/-- Zipping the two projections of a pair list gives the list back. -/
theorem zip_projections (d : List (α × β)) :
    (d.map Prod.fst).zip (d.map Prod.snd) = d := by
  induction d with
  | nil => rfl
  | cons p t ih =>
    obtain ⟨k, v⟩ := p
    simp [ih]

/-- Inserting a fresh key into a Python dict appends it. -/
theorem insertOrReplace_fresh (acc : Store) (k v : Value)
    (h : ∀ p ∈ acc, beqV p.1 k = false) :
    insertOrReplace acc k v = acc ++ [(k, v)] := by
  induction acc with
  | nil => rfl
  | cons p t ih =>
    obtain ⟨k0, v0⟩ := p
    have h0 : beqV k0 k = false := h (k0, v0) (by simp)
    have hrec := ih (fun q hq => h q (by simp [hq]))
    simp [insertOrReplace, h0, hrec]

/-- Components of `representableP`. -/
theorem representableP_parts (t : List (Value × Value))
    (h : representableP t = true) :
    ∀ q ∈ t, hashableV q.1 = true ∧ representableV q.1 = true ∧
      representableV q.2 = true := by
  induction t with
  | nil => simp
  | cons p t2 ih =>
    obtain ⟨k, v⟩ := p
    simp only [representableP, Bool.and_eq_true] at h
    intro q hq
    rcases List.mem_cons.mp hq with hq1 | hq2
    · subst hq1
      exact ⟨h.1.1.1, h.1.1.2, h.1.2⟩
    · exact ih h.2 q hq2

/-- Building a Python dict from hashable, pairwise-distinct pairs returns
exactly those pairs (appended to the accumulator). -/
theorem pyDictGo_distinct (t : List (Value × Value)) : ∀ acc : Store,
    (∀ p ∈ acc, ∀ q ∈ t, beqV p.1 q.1 = false) →
    distinctKeys t = true → (∀ q ∈ t, hashableV q.1 = true) →
    pyDictGo acc t = .ok (acc ++ t) := by
  induction t with
  | nil => intro acc _ _ _; simp [pyDictGo]
  | cons p t2 ih =>
    intro acc hcross hdk hh
    obtain ⟨k, v⟩ := p
    simp only [distinctKeys, Bool.and_eq_true] at hdk
    have hk : hashableV k = true := hh (k, v) (by simp)
    have hins : insertOrReplace acc k v = acc ++ [(k, v)] :=
      insertOrReplace_fresh acc k v (fun p hp => hcross p hp (k, v) (by simp))
    have hfresh : ∀ q ∈ t2, beqV k q.1 = false := by
      intro q hq
      have := List.all_eq_true.mp hdk.1 q hq
      simpa using this
    have hcross2 : ∀ p ∈ acc ++ [(k, v)], ∀ q ∈ t2, beqV p.1 q.1 = false := by
      intro p hp q hq
      rcases List.mem_append.mp hp with hpa | hpk
      · exact hcross p hpa q (by simp [hq])
      · simp only [List.mem_singleton] at hpk
        subst hpk
        exact hfresh q hq
    have ih2 := ih (acc ++ [(k, v)]) hcross2 hdk.2
      (fun q hq => hh q (by simp [hq]))
    simp only [pyDictGo, hk, if_pos, hins, ih2]
    simp

/-- Decode inverts encode: for every representable value `v` (no
`SimpleText`/`ErrorText` parts, dict keys hashable and distinct), decoding
the bytes `_write` produced, in server-side mode and with fuel at least the
size of `v`, returns `v` itself and leaves the rest of the stream. -/
theorem decode_pyWrite : ∀ v : Value, ∀ f : Nat, ∀ bs rest : ByteStream,
    representableV v = true → pyWrite v = .ok bs → sizeOf v ≤ f →
    handle_request f server_side (bs ++ rest) = .ok (v, rest) := by
  intro v
  induction v using Value.myInd with
  | h2 s =>
    intro f bs rest hwf _ _
    simp [representableV] at hwf
  | h7 m _ =>
    intro f bs rest hwf _ _
    simp [representableV] at hwf
  | h1 b =>
    intro f bs rest hwf hok hsz
    simp only [pyWrite, Except.ok.injEq] at hok
    subst hok
    cases f with
    | zero =>
      exfalso
      have := sizeOfV_pos (.bytesV b)
      omega
    | succ f1 =>
      simp only [List.append_assoc, List.cons_append, List.nil_append,
        handle_request]
      norm_num
      simpa using handle_string_encoded b rest
  | h3 i =>
    intro f bs rest hwf hok hsz
    simp only [pyWrite, Except.ok.injEq] at hok
    subst hok
    cases f with
    | zero =>
      exfalso
      have := sizeOfV_pos (.intV i)
      omega
    | succ f1 =>
      simp only [List.append_assoc, List.cons_append, List.nil_append,
        handle_request]
      norm_num
      simpa using handle_integer_encoded i rest
  | h4 =>
    intro f bs rest hwf hok hsz
    simp only [pyWrite, Except.ok.injEq] at hok
    subst hok
    cases f with
    | zero =>
      exfalso
      have := sizeOfV_pos .noneV
      omega
    | succ f1 =>
      simp only [List.cons_append, handle_request]
      norm_num
      simpa using handle_string_null rest
  | h5 l ih =>
    intro f bs rest hwf hok hsz
    rcases hpl : pyWriteList l with e | body
    · simp [pyWrite, hpl, errBind] at hok
    · simp only [pyWrite, hpl, okBind, Except.ok.injEq] at hok
      subst hok
      cases f with
      | zero =>
        exfalso
        have := sizeOfV_pos (.listV l)
        omega
      | succ f1 =>
        have hwfL : representableL l = true := by
          simpa [representableV] using hwf
        have hszl : sizeOf l ≤ f1 := by
          simp only [Value.listV.sizeOf_spec] at hsz
          omega
        have inner : ∀ (t : List Value), (∀ x ∈ t, x ∈ l) →
            ∀ (g : Nat) (bodyT restT : ByteStream),
            representableL t = true → pyWriteList t = .ok bodyT →
            sizeOf t ≤ g →
            decodeN g server_side t.length (bodyT ++ restT) =
              .ok (t, restT) := by
          intro t
          induction t with
          | nil =>
            intro _ g bodyT restT _ hokT _
            simp only [pyWriteList, Except.ok.injEq] at hokT
            subst hokT
            simp [decodeN]
          | cons x t2 iht =>
            intro hmem g bodyT restT hwfT hokT hszT
            rcases hx : pyWrite x with e | bx
            · simp [pyWriteList, hx, errBind] at hokT
            · rcases ht2 : pyWriteList t2 with e | bt
              · simp [pyWriteList, hx, ht2, okBind, errBind] at hokT
              · simp only [pyWriteList, hx, ht2, okBind, errBind,
                  Except.ok.injEq] at hokT
                subst hokT
                cases g with
                | zero =>
                  exfalso
                  have := sizeOfV_pos x
                  simp only [List.cons.sizeOf_spec] at hszT
                  omega
                | succ g1 =>
                  simp only [representableL, Bool.and_eq_true] at hwfT
                  have hsx : sizeOf x ≤ g1 ∧ sizeOf t2 ≤ g1 := by
                    simp only [List.cons.sizeOf_spec] at hszT
                    have := sizeOfV_pos x
                    constructor <;> omega
                  have hreq := ih x (hmem x (by simp)) g1 bx (bt ++ restT)
                    hwfT.1 hx hsx.1
                  have hrec := iht (fun y hy => hmem y (by simp [hy])) g1 bt
                    restT hwfT.2 ht2 hsx.2
                  simp only [List.length_cons, decodeN, List.append_assoc,
                    hreq, okBind, hrec]
        have hinner := inner l (fun x hx => hx) f1 body rest hwfL hpl hszl
        simp only [List.append_assoc, List.cons_append, List.nil_append,
          handle_request]
        norm_num
        obtain ⟨hl1, hl2⟩ := intLine (l.length : Int) (body ++ rest)
        simp only [List.append_assoc, List.cons_append, List.nil_append] at hl1
        have hln : ((l.length : Int)).toNat = l.length := by omega
        simp only [hl1, hl2, okBind, hln, hinner]
  | h6 d ih =>
    intro f bs rest hwf hok hsz
    rcases hpp : pyWritePairs d with e | body
    · simp [pyWrite, hpp, errBind] at hok
    · simp only [pyWrite, hpp, okBind, Except.ok.injEq] at hok
      subst hok
      cases f with
      | zero =>
        exfalso
        have := sizeOfV_pos (.dictV d)
        omega
      | succ f1 =>
        have hwfd : distinctKeys d = true ∧ representableP d = true := by
          simpa [representableV] using hwf
        have hszd : sizeOf d ≤ f1 := by
          simp only [Value.dictV.sizeOf_spec] at hsz
          omega
        have inner2 : ∀ (t : List (Value × Value)), (∀ p ∈ t, p ∈ d) →
            ∀ (g : Nat) (bodyT restT : ByteStream),
            representableP t = true → pyWritePairs t = .ok bodyT →
            sizeOf t ≤ g →
            decodeN g server_side (t.length * 2) (bodyT ++ restT) =
              .ok (flatPairs t, restT) := by
          intro t
          induction t with
          | nil =>
            intro _ g bodyT restT _ hokT _
            simp only [pyWritePairs, Except.ok.injEq] at hokT
            subst hokT
            simp [decodeN, flatPairs]
          | cons p t2 iht =>
            intro hmem g bodyT restT hwfT hokT hszT
            obtain ⟨k, v⟩ := p
            rcases hk : pyWrite k with e | bk
            · simp [pyWritePairs, hk, errBind] at hokT
            · rcases hv : pyWrite v with e | bv
              · simp [pyWritePairs, hk, hv, okBind, errBind] at hokT
              · rcases ht2 : pyWritePairs t2 with e | bt
                · simp [pyWritePairs, hk, hv, ht2, okBind, errBind] at hokT
                · simp only [pyWritePairs, hk, hv, ht2, okBind, errBind,
                    Except.ok.injEq] at hokT
                  subst hokT
                  have hg2 : ∃ g2, g = g2 + 2 := by
                    refine ⟨g - 2, ?_⟩
                    simp only [List.cons.sizeOf_spec,
                      Prod.mk.sizeOf_spec] at hszT
                    have hk1 := sizeOfV_pos k
                    have hv1 := sizeOfV_pos v
                    omega
                  obtain ⟨g2, rfl⟩ := hg2
                  have hp := ih k v (hmem (k, v) (by simp))
                  simp only [representableP, Bool.and_eq_true] at hwfT
                  have hsz2 : sizeOf k ≤ g2 + 1 ∧ sizeOf v ≤ g2 ∧
                      sizeOf t2 ≤ g2 := by
                    simp only [List.cons.sizeOf_spec,
                      Prod.mk.sizeOf_spec] at hszT
                    have hk1 := sizeOfV_pos k
                    have hv1 := sizeOfV_pos v
                    refine ⟨by omega, by omega, by omega⟩
                  have hreqk := hp.1 (g2 + 1) bk (bv ++ (bt ++ restT))
                    hwfT.1.1.2 hk hsz2.1
                  have hreqv := hp.2 g2 bv (bt ++ restT)
                    hwfT.1.2 hv hsz2.2.1
                  have hrec := iht (fun q hq => hmem q (by simp [hq])) g2 bt
                    restT hwfT.2 ht2 hsz2.2.2
                  have hcount : ((k, v) :: t2).length * 2 =
                      t2.length * 2 + 1 + 1 := by
                    simp only [List.length_cons]
                    ring
                  rw [hcount]
                  simp only [decodeN, List.append_assoc, hreqk, okBind,
                    hreqv, hrec, flatPairs]
        have hinner := inner2 d (fun p hp => hp) f1 body rest hwfd.2 hpp hszd
        have hfe := flatPairs_evens_odds d
        have hdict : pyDictOfPairs
            ((pyEvens (flatPairs d)).zip (pyOdds (flatPairs d))) = .ok d := by
          rw [hfe.1, hfe.2, zip_projections]
          have := pyDictGo_distinct d [] (by simp) hwfd.1
            (fun q hq => (representableP_parts d hwfd.2 q hq).1)
          simpa [pyDictOfPairs] using this
        simp only [List.append_assoc, List.cons_append, List.nil_append,
          handle_request]
        norm_num
        obtain ⟨hl1, hl2⟩ := intLine (d.length : Int) (body ++ rest)
        simp only [List.append_assoc, List.cons_append, List.nil_append] at hl1
        have hln : ((d.length : Int)).toNat = d.length := by omega
        simp only [hl1, hl2, okBind, hln, hinner, hdict]

/-- Standalone version of the sequential element decode: decoding the
concatenated encodings of `t` yields the elements of `t` in order. -/
theorem decodeN_pyWriteList (t : List Value) : ∀ (g : Nat)
    (bodyT restT : ByteStream), representableL t = true →
    pyWriteList t = .ok bodyT → sizeOf t ≤ g →
    decodeN g server_side t.length (bodyT ++ restT) = .ok (t, restT) := by
  induction t with
  | nil =>
    intro g bodyT restT _ hokT _
    simp only [pyWriteList, Except.ok.injEq] at hokT
    subst hokT
    simp [decodeN]
  | cons x t2 iht =>
    intro g bodyT restT hwfT hokT hszT
    rcases hx : pyWrite x with e | bx
    · simp [pyWriteList, hx, errBind] at hokT
    · rcases ht2 : pyWriteList t2 with e | bt
      · simp [pyWriteList, hx, ht2, okBind, errBind] at hokT
      · simp only [pyWriteList, hx, ht2, okBind, errBind,
          Except.ok.injEq] at hokT
        subst hokT
        cases g with
        | zero =>
          exfalso
          have := sizeOfV_pos x
          simp only [List.cons.sizeOf_spec] at hszT
          omega
        | succ g1 =>
          simp only [representableL, Bool.and_eq_true] at hwfT
          have hsx : sizeOf x ≤ g1 ∧ sizeOf t2 ≤ g1 := by
            simp only [List.cons.sizeOf_spec] at hszT
            have := sizeOfV_pos x
            constructor <;> omega
          have hreq := decode_pyWrite x g1 bx (bt ++ restT) hwfT.1 hx hsx.1
          have hrec := iht g1 bt restT hwfT.2 ht2 hsx.2
          simp only [List.length_cons, decodeN, List.append_assoc, hreq,
            okBind, hrec]

/-! ## Claim C5: round trip -/

/-- C5 (confirmed).  For every representable `Value` of bounded nesting
depth — bytes, integer, null, ordered sequence, or mapping, the
`SimpleText`/`ErrorText` shapes being the claim's exempted ones — decoding
the encoding in server-side mode returns the value bit for bit:
`Decode(Encode(v), ServerSide) = v`, consuming exactly the encoded bytes.
The fuel hypothesis `sizeOf v ≤ f` realizes the claim's bounded nesting
depth. -/
theorem C5_decode_encode_roundtrip (v : Value) (f : Nat)
    (bs rest : ByteStream) (hrep : representableV v = true)
    (henc : pyWrite v = .ok bs) (hfuel : sizeOf v ≤ f) :
    handle_request f server_side (bs ++ rest) = .ok (v, rest) :=
  decode_pyWrite v f bs rest hrep henc hfuel

/-- Instantiation of `C5_decode_encode_roundtrip` at a value exercising
every representable shape, including binary-unsafe bytes `\x00\x01\r\n`:
`[-5, b"\x00\x01\r\n", None, {b"k": 1}]` survives the round trip. -/
theorem C5_roundtrip_witness :
    representableV (.listV [.intV (-5), .bytesV [0, 1, 13, 10], .noneV,
      .dictV [(.bytesV [107], .intV 1)]]) = true ∧
    pyWrite (.listV [.intV (-5), .bytesV [0, 1, 13, 10], .noneV,
      .dictV [(.bytesV [107], .intV 1)]]) =
      .ok [42, 52, 13, 10, 58, 45, 53, 13, 10, 36, 52, 13, 10, 0, 1, 13, 10,
        13, 10, 36, 45, 49, 13, 10, 37, 49, 13, 10, 36, 49, 13, 10, 107, 13,
        10, 58, 49, 13, 10] ∧
    handle_request 1000 server_side
      ([42, 52, 13, 10, 58, 45, 53, 13, 10, 36, 52, 13, 10, 0, 1, 13, 10,
        13, 10, 36, 45, 49, 13, 10, 37, 49, 13, 10, 36, 49, 13, 10, 107, 13,
        10, 58, 49, 13, 10] ++ []) =
      .ok (.listV [.intV (-5), .bytesV [0, 1, 13, 10], .noneV,
        .dictV [(.bytesV [107], .intV 1)]], []) :=
  ⟨rfl, rfl,
    C5_decode_encode_roundtrip
      (.listV [.intV (-5), .bytesV [0, 1, 13, 10], .noneV,
        .dictV [(.bytesV [107], .intV 1)]])
      1000 _ [] rfl rfl (by decide)⟩

/-- C6 (amended).  Decoding a wire map pairs element `2i` with `2i+1` in
decode order and then builds a Python dict from those pairs, so duplicate
keys are collapsed rather than preserved: the later value overwrites the
earlier at the key's first position, and the decoded Map holds one entry
per distinct key.  For any representable hashable key `k`, decoding
`%2` enc(k) enc(v1) enc(k) enc(v2) yields exactly the one-pair map
`[(k, v2)]`. -/
theorem C6_amended_duplicate_keys_last_value_wins (k v1 v2 : Value) (f : Nat)
    (bk b1 b2 rest : ByteStream) (hrk : representableV k = true)
    (hr1 : representableV v1 = true) (hr2 : representableV v2 = true)
    (hhk : hashableV k = true) (hek : pyWrite k = .ok bk)
    (he1 : pyWrite v1 = .ok b1) (he2 : pyWrite v2 = .ok b2)
    (hf : 2 * sizeOf k + sizeOf v1 + sizeOf v2 + 6 ≤ f) :
    handle_request f server_side
      ([37, 50, 13, 10] ++ (bk ++ (b1 ++ (bk ++ (b2 ++ rest))))) =
      .ok (.dictV [(k, v2)], rest) := by
  have hlist : pyWriteList [k, v1, k, v2] =
      .ok (bk ++ (b1 ++ (bk ++ (b2 ++ [])))) := by
    simp [pyWriteList, hek, he1, he2, okBind]
  have hrepL : representableL [k, v1, k, v2] = true := by
    simp [representableL, hrk, hr1, hr2]
  obtain ⟨f1, rfl⟩ : ∃ f1, f = f1 + 1 := ⟨f - 1, by omega⟩
  have hszL : sizeOf [k, v1, k, v2] ≤ f1 := by
    simp only [List.cons.sizeOf_spec, List.nil.sizeOf_spec]
    omega
  have hdec := decodeN_pyWriteList [k, v1, k, v2] f1
    (bk ++ (b1 ++ (bk ++ (b2 ++ [])))) rest hrepL hlist hszL
  have hdec2 : decodeN f1 server_side 4
      (bk ++ (b1 ++ (bk ++ (b2 ++ rest)))) = .ok ([k, v1, k, v2], rest) := by
    simpa using hdec
  have hzip : (pyEvens [k, v1, k, v2]).zip (pyOdds [k, v1, k, v2]) =
      [(k, v1), (k, v2)] := by
    simp [pyEvens, pyOdds]
  have hdict : pyDictOfPairs [(k, v1), (k, v2)] = .ok [(k, v2)] := by
    simp [pyDictOfPairs, pyDictGo, hhk, insertOrReplace, beqV_refl k]
  have hrl := pyReadline_line [50, 13] (bk ++ (b1 ++ (bk ++ (b2 ++ rest))))
    (by decide)
  have hrl2 : pyReadline
      (50 :: 13 :: 10 :: (bk ++ (b1 ++ (bk ++ (b2 ++ rest))))) =
      ([50, 13, 10], bk ++ (b1 ++ (bk ++ (b2 ++ rest)))) := by
    simpa using hrl
  have hrs : rstripCRLF [50, 13, 10] = [50] := by decide
  have hpi : pyInt [50] = .ok 2 := rfl
  simp only [List.cons_append, List.nil_append, handle_request]
  norm_num
  simp only [hrl2, hrs, hpi, okBind]
  have h4 : ((2 : Int)).toNat * 2 = 4 := by decide
  simp only [h4, hdec2, okBind, hzip, hdict]

/-- Instantiation of `C6_amended_duplicate_keys_last_value_wins` at the
duplicate-keyed wire map with pairs (1, 10) and (1, 20): the decoded value
is the one-entry map `[(1, 20)]`. -/
theorem C6_amended_witness :
    handle_request 100 server_side
      ([37, 50, 13, 10] ++ ([58, 49, 13, 10] ++ ([58, 49, 48, 13, 10] ++
        ([58, 49, 13, 10] ++ ([58, 50, 48, 13, 10] ++ []))))) =
      .ok (.dictV [(.intV 1, .intV 20)], []) :=
  C6_amended_duplicate_keys_last_value_wins (.intV 1) (.intV 10) (.intV 20)
    100 _ _ _ [] rfl rfl rfl rfl rfl rfl rfl (by decide)

end MiniRedis
